import Mathlib

/-!
Shallow embedding of the lapack-ts linear-equation solver: the strided
matrix view and its utility functions, and the DGESV/DGETRF/DGETRS
routines from the linear-equations module.  JS floating-point numbers are
modelled as rationals; JS integers as `Int` so that negative dimensions
are representable; thrown exceptions as `Except`; in-place mutation by
explicit state passing.  Out-of-bounds typed-array reads (which give
`undefined` in JS) are modelled with the junk value 0, and out-of-bounds
writes as no-ops, matching typed-array semantics.
-/

namespace LapackTs

/-- Storage order of a matrix view. -/
inductive MatrixLayout where
  | rowMajor
  | colMajor
deriving DecidableEq

/-- The matrix view: flat buffer, dimensions, layout and leading
dimension, mirroring the Matrix interface of the types module. -/
structure Matrix where
  data : List ℚ
  rows : ℤ
  cols : ℤ
  layout : MatrixLayout
  leadingDimension : ℤ
deriving DecidableEq

/-- Thrown errors: a LapackError (info code and function name; the
message text is not modelled) or a builtin RangeError raised by typed
array allocation and bulk assignment. -/
inductive JsError where
  | lapackError (info : ℤ) (functionName : String)
  | rangeError
deriving DecidableEq

instance instDecEqExcept {ε α : Type} [DecidableEq ε] [DecidableEq α] :
    DecidableEq (Except ε α) := fun x y =>
  match x, y with
  | .error e, .error f =>
    if h : e = f then isTrue (by rw [h]) else isFalse (fun hh => h (by injection hh))
  | .error _, .ok _ => isFalse (fun hh => Except.noConfusion hh)
  | .ok _, .error _ => isFalse (fun hh => Except.noConfusion hh)
  | .ok a, .ok b =>
    if h : a = b then isTrue (by rw [h]) else isFalse (fun hh => h (by injection hh))

/-- Physical offset of logical (i, j): j*ld + i when column-major,
i*ld + j when row-major. -/
def offsetOf (m : Matrix) (i j : ℤ) : ℤ :=
  match m.layout with
  | .colMajor => j * m.leadingDimension + i
  | .rowMajor => i * m.leadingDimension + j

/-- Raw buffer read at the computed offset, with no index validation:
out-of-range reads produce the junk value 0. -/
def bufRead (m : Matrix) (i j : ℤ) : ℚ :=
  let index := offsetOf m i j
  if 0 ≤ index then m.data.getD index.toNat 0 else 0

/-- Raw buffer write at the computed offset, with no index validation:
out-of-range writes leave the buffer unchanged. -/
def bufWrite (m : Matrix) (i j : ℤ) (v : ℚ) : Matrix :=
  let index := offsetOf m i j
  if 0 ≤ index then { m with data := m.data.set index.toNat v } else m

/-- Auxiliary for intRange: counts len integers upward from lo. -/
def intRangeAux (lo : ℤ) : ℕ → List ℤ
  | 0 => []
  | len + 1 => lo :: intRangeAux (lo + 1) len

/-- The list of integers lo, lo+1, ..., hi-1, used to express the
source's counting for-loops. -/
def intRange (lo hi : ℤ) : List ℤ :=
  intRangeAux lo (hi - lo).toNat

namespace Utils

/-- validateIndices from the matrix utility module: row bound checked
first, then the column bound. -/
def validateIndices (m : Matrix) (i j : ℤ) : Except JsError Unit :=
  if i < 0 ∨ m.rows ≤ i then .error (.lapackError (-1) "validateIndices")
  else if j < 0 ∨ m.cols ≤ j then .error (.lapackError (-1) "validateIndices")
  else .ok ()

/-- Bounds-checked element read (public accessor of the utility
module). -/
def getElement (m : Matrix) (i j : ℤ) : Except JsError ℚ :=
  match validateIndices m i j with
  | .error e => .error e
  | .ok _ => .ok (bufRead m i j)

/-- Bounds-checked element write (public accessor of the utility
module); returns the updated matrix state. -/
def setElement (m : Matrix) (i j : ℤ) (v : ℚ) : Except JsError Matrix :=
  match validateIndices m i j with
  | .error e => .error e
  | .ok _ => .ok (bufWrite m i j v)

/-- createMatrix: wraps a buffer, rejecting one smaller than rows*cols;
the leading dimension is rows for column-major and cols for row-major. -/
def createMatrix (data : List ℚ) (rows cols : ℤ) (layout : MatrixLayout) :
    Except JsError Matrix :=
  if (data.length : ℤ) < rows * cols then
    .error (.lapackError (-1) "createMatrix")
  else
    .ok { data := data, rows := rows, cols := cols, layout := layout,
          leadingDimension := match layout with | .colMajor => rows | .rowMajor => cols }

/-- createFloat64Matrix: allocates a rows*cols buffer (the typed-array
constructor throws a RangeError on a negative length), fills it with the
initial value when that value is nonzero, and wraps it via createMatrix. -/
def createFloat64Matrix (rows cols : ℤ) (layout : MatrixLayout) (initialValue : ℚ) :
    Except JsError Matrix :=
  if rows * cols < 0 then .error .rangeError
  else
    let len := (rows * cols).toNat
    let data := if initialValue ≠ 0 then List.replicate len initialValue
                else List.replicate len 0
    createMatrix data rows cols layout

/-- validateParameters: n, nrhs nonnegative and both leading dimensions
at least max(1, n), with the LAPACK-style negative codes -1, -2, -4, -7
checked in that order. -/
def validateParameters (n nrhs lda ldb : ℤ) (functionName : String) :
    Except JsError Unit :=
  if n < 0 then .error (.lapackError (-1) functionName)
  else if nrhs < 0 then .error (.lapackError (-2) functionName)
  else if lda < max 1 n then .error (.lapackError (-4) functionName)
  else if ldb < max 1 n then .error (.lapackError (-7) functionName)
  else .ok ()

/-- Bulk assignment target.data.set(src): throws a RangeError when the
source does not fit, otherwise overlays it at offset 0. -/
def typedArraySet (dst src : List ℚ) : Except JsError (List ℚ) :=
  if dst.length < src.length then .error .rangeError
  else .ok (src ++ dst.drop src.length)

/-- copyMatrix: shape check, then either a bulk transfer (same layout,
same leading dimension equal to the row count) or an element-wise copy
through the bounds-checked accessors. -/
def copyMatrix (source target : Matrix) : Except JsError Matrix :=
  if source.rows ≠ target.rows ∨ source.cols ≠ target.cols then
    .error (.lapackError (-1) "copyMatrix")
  else if source.layout = target.layout ∧
      source.leadingDimension = target.leadingDimension ∧
      source.leadingDimension = source.rows then
    match typedArraySet target.data
        (source.data.take (source.rows * source.cols).toNat) with
    | .error e => .error e
    | .ok newData => .ok { target with data := newData }
  else
    (intRange 0 source.rows).foldlM (fun t i =>
      (intRange 0 source.cols).foldlM (fun t2 j =>
        match getElement source i j with
        | .error e => .error e
        | .ok v => setElement t2 i j v) t) target

end Utils

namespace LinearEquations

/-- The solver module's private element read: identical offset formula,
no index validation. -/
def getElement (m : Matrix) (i j : ℤ) : ℚ :=
  bufRead m i j

/-- The solver module's private element write: identical offset formula,
no index validation. -/
def setElement (m : Matrix) (i j : ℤ) (v : ℚ) : Matrix :=
  bufWrite m i j v

/-- The pivot search of DGETRF at column k: starts from row k and scans
rows k+1..n-1, keeping the first row attaining the strictly largest
absolute value.  Returns (maxRow, maxVal). -/
def pivotScan (A : Matrix) (k n : ℤ) : ℤ × ℚ :=
  (intRange (k + 1) n).foldl
    (fun acc i =>
      let val := |getElement A i k|
      if acc.2 < val then (i, val) else acc)
    (k, |getElement A k k|)

/-- The row interchange of DGETRF: swaps rows k and maxRow across all n
columns, column by column. -/
def swapRowsGetrf (A : Matrix) (k maxRow n : ℤ) : Matrix :=
  (intRange 0 n).foldl
    (fun M j =>
      let temp := getElement M k j
      let M1 := setElement M k j (getElement M maxRow j)
      setElement M1 maxRow j temp) A

/-- The elimination step of DGETRF at column k: the pivot is read once,
then each row below stores its multiplier in column k and updates
columns k+1..n-1. -/
def eliminateCol (A : Matrix) (k n : ℤ) : Matrix :=
  let pivot := getElement A k k
  (intRange (k + 1) n).foldl
    (fun M i =>
      let factor := getElement M i k / pivot
      let M1 := setElement M i k factor
      (intRange (k + 1) n).foldl
        (fun M2 j =>
          setElement M2 i j (getElement M2 i j - factor * getElement M2 k j)) M1) A

/-- The k-loop of DGETRF, with explicit fuel for termination; the guard
k < n matches the source's loop condition, so the fuel is semantically
inert as long as it is at least n - k. -/
def dgetrfLoop (n : ℤ) : ℕ → ℤ → Matrix → List ℤ → Matrix × List ℤ × ℤ
  | 0, _, A, ipiv => (A, ipiv, 0)
  | fuel + 1, k, A, ipiv =>
    if k < n then
      let scan := pivotScan A k n
      let maxRow := scan.1
      let maxVal := scan.2
      let ipiv1 := ipiv.set k.toNat (maxRow + 1)
      if maxVal = 0 then (A, ipiv1, k + 1)
      else
        let A1 := if maxRow ≠ k then swapRowsGetrf A k maxRow n else A
        let A2 := eliminateCol A1 k n
        dgetrfLoop n fuel (k + 1) A2 ipiv1
    else (A, ipiv, 0)

/-- DGETRF: LU factorization with partial pivoting, returning the
factored matrix, the pivot array and the info code. -/
def dgetrf (A : Matrix) (ipiv : List ℤ) : Matrix × List ℤ × ℤ :=
  dgetrfLoop A.rows A.rows.toNat 0 A ipiv

/-- The transpose-mode argument of DGETRS. -/
inductive TransMode where
  | N
  | T
  | C
deriving DecidableEq

/-- DGETRS: applies the recorded row interchanges to B, then forward
substitution against the unit lower factor and back substitution against
the upper factor.  Any mode other than N throws a LapackError. -/
def dgetrs (trans : TransMode) (A : Matrix) (ipiv : List ℤ) (B : Matrix) :
    Except JsError (Matrix × ℤ) :=
  match trans with
  | .T => .error (.lapackError (-1) "DGETRS")
  | .C => .error (.lapackError (-1) "DGETRS")
  | .N =>
    let n := A.rows
    let nrhs := B.cols
    let B1 := (intRange 0 n).foldl
      (fun M k =>
        let pivotRow := ipiv.getD k.toNat 0 - 1
        if pivotRow ≠ k then
          (intRange 0 nrhs).foldl
            (fun M2 j =>
              let temp := getElement M2 k j
              let M3 := setElement M2 k j (getElement M2 pivotRow j)
              setElement M3 pivotRow j temp) M
        else M) B
    let B2 := (intRange 0 (n - 1)).foldl
      (fun M k =>
        (intRange (k + 1) n).foldl
          (fun M2 i =>
            let factor := getElement A i k
            (intRange 0 nrhs).foldl
              (fun M3 j =>
                setElement M3 i j (getElement M3 i j - factor * getElement M3 k j)) M2) M) B1
    let B3 := ((intRange 0 n).reverse).foldl
      (fun M k =>
        let pivot := getElement A k k
        let M1 := (intRange 0 nrhs).foldl
          (fun M2 j =>
            setElement M2 k j (getElement M2 k j / pivot)) M
        (intRange 0 k).foldl
          (fun M2 i =>
            let factor := getElement A i k
            (intRange 0 nrhs).foldl
              (fun M3 j =>
                setElement M3 i j (getElement M3 i j - factor * getElement M3 k j)) M2) M1) B2
    .ok (B3, 0)

/-- The populated success payload of dgesv. -/
structure DgesvOutput where
  solution : Matrix
  LU : Matrix
  pivots : List ℤ
deriving DecidableEq

/-- The observable outcome of a dgesv call: the info code, the result
payload (none models the empty object returned on failure), and the
final states of the caller's A and B buffers. -/
structure DgesvReturn where
  info : ℤ
  result : Option DgesvOutput
  finalA : Matrix
  finalB : Matrix
deriving DecidableEq

/-- DGESV: shape checks, parameter validation (LapackError translated to
an info code, anything else rethrown), optional working copies, then
DGETRF followed by DGETRS. -/
def dgesv (A B : Matrix) (overwriteInput : Bool) : Except JsError DgesvReturn :=
  if A.rows ≠ A.cols then .ok ⟨-1, none, A, B⟩
  else if A.rows ≠ B.rows then .ok ⟨-1, none, A, B⟩
  else
    let n := A.rows
    let nrhs := B.cols
    match Utils.validateParameters n nrhs A.leadingDimension B.leadingDimension "DGESV" with
    | .error (.lapackError i _) => .ok ⟨i, none, A, B⟩
    | .error .rangeError => .error .rangeError
    | .ok _ =>
      let work : Except JsError (Matrix × Matrix) :=
        if overwriteInput then .ok (A, B)
        else
          match Utils.createFloat64Matrix n n A.layout 0 with
          | .error e => .error e
          | .ok workA0 =>
            match Utils.createFloat64Matrix n nrhs B.layout 0 with
            | .error e => .error e
            | .ok workB0 =>
              match Utils.copyMatrix A workA0 with
              | .error e => .error e
              | .ok workA1 =>
                match Utils.copyMatrix B workB0 with
                | .error e => .error e
                | .ok workB1 => .ok (workA1, workB1)
      match work with
      | .error e => .error e
      | .ok (workA, workB) =>
        let r := dgetrf workA (List.replicate n.toNat 0)
        let luA := r.1
        let pivots := r.2.1
        let infoF := r.2.2
        if infoF ≠ 0 then
          .ok ⟨infoF, none, if overwriteInput then luA else A,
               if overwriteInput then workB else B⟩
        else
          match dgetrs .N luA pivots workB with
          | .error e => .error e
          | .ok (solB, infoS) =>
            if infoS ≠ 0 then
              .ok ⟨infoS, none, if overwriteInput then luA else A,
                   if overwriteInput then solB else B⟩
            else
              .ok ⟨0, some ⟨solB, luA, pivots⟩,
                   if overwriteInput then luA else A,
                   if overwriteInput then solB else B⟩

end LinearEquations

/-- A well-formed dense matrix view: nonnegative dimensions, the
canonical leading dimension for its layout, and a buffer covering
rows*cols elements. -/
def Wf (m : Matrix) : Prop :=
  0 ≤ m.rows ∧ 0 ≤ m.cols ∧
  m.leadingDimension = (match m.layout with | .colMajor => m.rows | .rowMajor => m.cols) ∧
  m.rows * m.cols ≤ (m.data.length : ℤ)

instance (m : Matrix) : Decidable (Wf m) := by
  unfold Wf; infer_instance

/-- Builds a matrix as callers of the library do: createFloat64Matrix
followed by a sequence of bounds-checked setElement calls. -/
def buildM (rows cols : ℤ) (lay : MatrixLayout) (entries : List (ℤ × ℤ × ℚ)) :
    Except JsError Matrix :=
  match Utils.createFloat64Matrix rows cols lay 0 with
  | .error e => .error e
  | .ok m0 => entries.foldlM (fun m e => Utils.setElement m e.1 e.2.1 e.2.2) m0

/-- The 2x2 system matrix A = [[2,1],[1,3]] in column-major storage (the
symmetric-looking buffer [2,1,1,3] is also correct row-major data for
this particular matrix). -/
def Acm : Matrix := ⟨[2, 1, 1, 3], 2, 2, .colMajor, 2⟩

/-- The same logical A in row-major storage. -/
def Arm : Matrix := ⟨[2, 1, 1, 3], 2, 2, .rowMajor, 2⟩

/-- The right-hand side B = [[3],[4]] in column-major storage. -/
def Bcm : Matrix := ⟨[3, 4], 2, 1, .colMajor, 2⟩

/-- The right-hand side B = [[3],[4]] in row-major storage (leading
dimension = cols = 1). -/
def Brm : Matrix := ⟨[3, 4], 2, 1, .rowMajor, 1⟩

/-- The LU factorization that dgesv computes for Acm. -/
def luC : Matrix := ⟨[2, 1/2, 1, 5/2], 2, 2, .colMajor, 2⟩

/-- The solution matrix dgesv computes for the (Acm, Bcm) system. -/
def solC : Matrix := ⟨[1, 1], 2, 1, .colMajor, 2⟩

/-- The LU factorization that dgesv computes for Arm (row-major). -/
def luRm : Matrix := ⟨[2, 1, 1/2, 5/2], 2, 2, .rowMajor, 2⟩

/-- A non-square 2x3 zero matrix. -/
def A23 : Matrix := ⟨List.replicate 6 0, 2, 3, .colMajor, 2⟩

/-- A square 3x3 zero matrix. -/
def A33 : Matrix := ⟨List.replicate 9 0, 3, 3, .colMajor, 3⟩

/-- A 2x1 zero matrix. -/
def B21 : Matrix := ⟨List.replicate 2 0, 2, 1, .colMajor, 2⟩

/-- Two matrix states of the same logical shape r x c, both well
formed, whose buffers agree at every in-range logical index.  This is
the simulation relation used to compare a column-major run with a
row-major run of the solver. -/
def SimM (r c : ℤ) (m m' : Matrix) : Prop :=
  m.rows = r ∧ m.cols = c ∧ m'.rows = r ∧ m'.cols = c ∧ Wf m ∧ Wf m' ∧
  (∀ i j : ℤ, 0 ≤ i → i < r → 0 ≤ j → j < c → bufRead m i j = bufRead m' i j)

namespace Checked

/-- Bounds-flagging read used for the safety claim: none exactly when
the computed physical offset falls outside the buffer (the situation in
which the unchecked solver helper would read undefined). -/
def getElementB (m : Matrix) (i j : ℤ) : Option ℚ :=
  if 0 ≤ offsetOf m i j ∧ offsetOf m i j < (m.data.length : ℤ) then
    some (bufRead m i j) else none

/-- Bounds-flagging write: none exactly when the computed physical
offset falls outside the buffer (where the unchecked write would be
silently dropped). -/
def setElementB (m : Matrix) (i j : ℤ) (v : ℚ) : Option Matrix :=
  if 0 ≤ offsetOf m i j ∧ offsetOf m i j < (m.data.length : ℤ) then
    some (bufWrite m i j v) else none

/-- The pivot scan of DGETRF with every buffer access checked. -/
def pivotScanB (A : Matrix) (k n : ℤ) : Option (ℤ × ℚ) := do
  let init ← getElementB A k k
  (intRange (k + 1) n).foldlM
    (fun acc i => do
      let v ← getElementB A i k
      pure (if acc.2 < |v| then (i, |v|) else acc))
    (k, |init|)

/-- The row interchange of DGETRF with every buffer access checked. -/
def swapRowsGetrfB (A : Matrix) (k maxRow n : ℤ) : Option Matrix :=
  (intRange 0 n).foldlM
    (fun M j => do
      let temp ← getElementB M k j
      let other ← getElementB M maxRow j
      let M1 ← setElementB M k j other
      setElementB M1 maxRow j temp) A

/-- The elimination step of DGETRF with every buffer access checked. -/
def eliminateColB (A : Matrix) (k n : ℤ) : Option Matrix := do
  let pivot ← getElementB A k k
  (intRange (k + 1) n).foldlM
    (fun M i => do
      let numer ← getElementB M i k
      let factor := numer / pivot
      let M1 ← setElementB M i k factor
      (intRange (k + 1) n).foldlM
        (fun M2 j => do
          let a ← getElementB M2 i j
          let b ← getElementB M2 k j
          setElementB M2 i j (a - factor * b)) M1) A

/-- The k-loop of DGETRF with every buffer access checked. -/
def dgetrfLoopB (n : ℤ) : ℕ → ℤ → Matrix → List ℤ → Option (Matrix × List ℤ × ℤ)
  | 0, _, A, ipiv => some (A, ipiv, 0)
  | fuel + 1, k, A, ipiv =>
    if k < n then do
      let scan ← pivotScanB A k n
      let ipiv1 := ipiv.set k.toNat (scan.1 + 1)
      if scan.2 = 0 then pure (A, ipiv1, k + 1)
      else do
        let A1 ← if scan.1 ≠ k then swapRowsGetrfB A k scan.1 n else pure A
        let A2 ← eliminateColB A1 k n
        dgetrfLoopB n fuel (k + 1) A2 ipiv1
    else pure (A, ipiv, 0)

/-- DGETRF with every buffer access checked. -/
def dgetrfB (A : Matrix) (ipiv : List ℤ) : Option (Matrix × List ℤ × ℤ) :=
  dgetrfLoopB A.rows A.rows.toNat 0 A ipiv

/-- DGETRS (mode N, the only mode dgesv invokes) with every buffer
access checked. -/
def dgetrsB (A : Matrix) (ipiv : List ℤ) (B : Matrix) : Option (Matrix × ℤ) := do
  let n := A.rows
  let nrhs := B.cols
  let B1 ← (intRange 0 n).foldlM
    (fun M k => do
      let pivotRow := ipiv.getD k.toNat 0 - 1
      if pivotRow ≠ k then
        (intRange 0 nrhs).foldlM
          (fun M2 j => do
            let temp ← getElementB M2 k j
            let other ← getElementB M2 pivotRow j
            let M3 ← setElementB M2 k j other
            setElementB M3 pivotRow j temp) M
      else pure M) B
  let B2 ← (intRange 0 (n - 1)).foldlM
    (fun M k =>
      (intRange (k + 1) n).foldlM
        (fun M2 i => do
          let factor ← getElementB A i k
          (intRange 0 nrhs).foldlM
            (fun M3 j => do
              let a ← getElementB M3 i j
              let b ← getElementB M3 k j
              setElementB M3 i j (a - factor * b)) M2) M) B1
  let B3 ← ((intRange 0 n).reverse).foldlM
    (fun M k => do
      let pivot ← getElementB A k k
      let M1 ← (intRange 0 nrhs).foldlM
        (fun M2 j => do
          let a ← getElementB M2 k j
          setElementB M2 k j (a / pivot)) M
      (intRange 0 k).foldlM
        (fun M2 i => do
          let factor ← getElementB A i k
          (intRange 0 nrhs).foldlM
            (fun M3 j => do
              let a ← getElementB M3 i j
              let b ← getElementB M3 k j
              setElementB M3 i j (a - factor * b)) M2) M1) B2
  pure (B3, 0)

/-- DGESV with the two engines replaced by their access-checked
variants; validation and working-copy creation are exactly those of
dgesv.  Returns none precisely when some engine access would fall
outside a buffer. -/
def dgesvChecked (A B : Matrix) (overwriteInput : Bool) :
    Option (Except JsError LinearEquations.DgesvReturn) :=
  if A.rows ≠ A.cols then some (.ok ⟨-1, none, A, B⟩)
  else if A.rows ≠ B.rows then some (.ok ⟨-1, none, A, B⟩)
  else
    let n := A.rows
    let nrhs := B.cols
    match Utils.validateParameters n nrhs A.leadingDimension B.leadingDimension "DGESV" with
    | .error (.lapackError i _) => some (.ok ⟨i, none, A, B⟩)
    | .error .rangeError => some (.error .rangeError)
    | .ok _ =>
      let work : Except JsError (Matrix × Matrix) :=
        if overwriteInput then .ok (A, B)
        else
          match Utils.createFloat64Matrix n n A.layout 0 with
          | .error e => .error e
          | .ok workA0 =>
            match Utils.createFloat64Matrix n nrhs B.layout 0 with
            | .error e => .error e
            | .ok workB0 =>
              match Utils.copyMatrix A workA0 with
              | .error e => .error e
              | .ok workA1 =>
                match Utils.copyMatrix B workB0 with
                | .error e => .error e
                | .ok workB1 => .ok (workA1, workB1)
      match work with
      | .error e => some (.error e)
      | .ok (workA, workB) => do
        let r ← dgetrfB workA (List.replicate n.toNat 0)
        let luA := r.1
        let pivots := r.2.1
        let infoF := r.2.2
        if infoF ≠ 0 then
          pure (.ok ⟨infoF, none, if overwriteInput then luA else A,
               if overwriteInput then workB else B⟩)
        else do
          let s ← dgetrsB luA pivots workB
          let solB := s.1
          let infoS := s.2
          if infoS ≠ 0 then
            pure (.ok ⟨infoS, none, if overwriteInput then luA else A,
                 if overwriteInput then solB else B⟩)
          else
            pure (.ok ⟨0, some ⟨solB, luA, pivots⟩,
                 if overwriteInput then luA else A,
                 if overwriteInput then solB else B⟩)

end Checked

section CoreLemmas

theorem bufWrite_rows (m : Matrix) (i j : ℤ) (v : ℚ) : (bufWrite m i j v).rows = m.rows := by
  unfold bufWrite; dsimp only; split <;> rfl

theorem bufWrite_cols (m : Matrix) (i j : ℤ) (v : ℚ) : (bufWrite m i j v).cols = m.cols := by
  unfold bufWrite; dsimp only; split <;> rfl

theorem bufWrite_layout (m : Matrix) (i j : ℤ) (v : ℚ) :
    (bufWrite m i j v).layout = m.layout := by
  unfold bufWrite; dsimp only; split <;> rfl

theorem bufWrite_ld (m : Matrix) (i j : ℤ) (v : ℚ) :
    (bufWrite m i j v).leadingDimension = m.leadingDimension := by
  unfold bufWrite; dsimp only; split <;> rfl

theorem bufWrite_length (m : Matrix) (i j : ℤ) (v : ℚ) :
    (bufWrite m i j v).data.length = m.data.length := by
  unfold bufWrite; dsimp only; split
  · simp
  · rfl

theorem offsetOf_bufWrite (m : Matrix) (i j a b : ℤ) (v : ℚ) :
    offsetOf (bufWrite m a b v) i j = offsetOf m i j := by
  unfold offsetOf
  rw [bufWrite_layout, bufWrite_ld]

theorem bufWrite_wf (m : Matrix) (i j : ℤ) (v : ℚ) (h : Wf m) : Wf (bufWrite m i j v) := by
  obtain ⟨h1, h2, h3, h4⟩ := h
  refine ⟨?_, ?_, ?_, ?_⟩
  · rw [bufWrite_rows]; exact h1
  · rw [bufWrite_cols]; exact h2
  · rw [bufWrite_ld, bufWrite_layout, bufWrite_rows, bufWrite_cols]; exact h3
  · rw [bufWrite_rows, bufWrite_cols, bufWrite_length]; exact h4

/-- For a well-formed matrix and in-range logical indices, the physical
offset is nonnegative and below rows*cols. -/
theorem offset_lt_size (m : Matrix) (i j : ℤ) (hw : Wf m)
    (hi0 : 0 ≤ i) (hi : i < m.rows) (hj0 : 0 ≤ j) (hj : j < m.cols) :
    0 ≤ offsetOf m i j ∧ offsetOf m i j < m.rows * m.cols := by
  obtain ⟨h1, h2, h3, h4⟩ := hw
  constructor
  · unfold offsetOf
    rcases hl : m.layout with _ | _ <;> rw [hl] at h3 <;> rw [h3] <;> dsimp only <;> positivity
  · unfold offsetOf
    rcases hl : m.layout with _ | _ <;> rw [hl] at h3 <;> rw [h3]
    · dsimp only
      nlinarith
    · dsimp only
      nlinarith

/-- For a well-formed matrix and in-range logical indices, the physical
offset is in bounds. -/
theorem offset_inbounds (m : Matrix) (i j : ℤ) (hw : Wf m)
    (hi0 : 0 ≤ i) (hi : i < m.rows) (hj0 : 0 ≤ j) (hj : j < m.cols) :
    0 ≤ offsetOf m i j ∧ offsetOf m i j < (m.data.length : ℤ) := by
  obtain ⟨h1, h2, h3, h4⟩ := hw
  have hlt : offsetOf m i j < m.rows * m.cols := by
    unfold offsetOf
    rcases hl : m.layout with _ | _ <;> rw [hl] at h3 <;> rw [h3]
    · -- row-major: i * cols + j < rows * cols
      dsimp only
      nlinarith
    · -- column-major: j * rows + i < rows * cols
      dsimp only
      nlinarith
  have hge : 0 ≤ offsetOf m i j := by
    unfold offsetOf
    rcases hl : m.layout with _ | _ <;> rw [hl] at h3 <;> rw [h3] <;> dsimp only <;> positivity
  exact ⟨hge, lt_of_lt_of_le hlt h4⟩

/-- In-range physical offsets determine the logical indices (the offset
map is injective on the valid index rectangle of a well-formed view). -/
theorem offset_inj (m : Matrix) (i j a b : ℤ) (hw : Wf m)
    (hi0 : 0 ≤ i) (hi : i < m.rows) (hj0 : 0 ≤ j) (hj : j < m.cols)
    (ha0 : 0 ≤ a) (ha : a < m.rows) (hb0 : 0 ≤ b) (hb : b < m.cols)
    (heq : offsetOf m i j = offsetOf m a b) : i = a ∧ j = b := by
  obtain ⟨h1, h2, h3, h4⟩ := hw
  unfold offsetOf at heq
  rcases hl : m.layout with _ | _ <;> rw [hl] at h3 heq <;> dsimp only at heq
  · -- row-major: i * cols + j = a * cols + b, 0 ≤ j, b < cols
    rw [h3] at heq
    have hcols : (i - a) * m.cols = b - j := by ring_nf; linarith
    have hia : i = a := by
      by_contra hne
      have h1' : 1 ≤ |i - a| := by
        rcases lt_or_gt_of_ne (sub_ne_zero_of_ne hne) with h | h
        · rw [abs_of_neg h]; omega
        · rw [abs_of_pos h]; omega
      have : m.cols ≤ |(i - a) * m.cols| := by
        rw [abs_mul, abs_of_nonneg (by omega : (0:ℤ) ≤ m.cols)]
        nlinarith
      rw [hcols] at this
      have : |b - j| < m.cols := by
        rw [abs_lt]; omega
      omega
    refine ⟨hia, ?_⟩
    rw [hia] at heq
    omega
  · -- column-major: j * rows + i = b * rows + a, 0 ≤ i, a < rows
    rw [h3] at heq
    have hrows : (j - b) * m.rows = a - i := by ring_nf; linarith
    have hjb : j = b := by
      by_contra hne
      have h1' : 1 ≤ |j - b| := by
        rcases lt_or_gt_of_ne (sub_ne_zero_of_ne hne) with h | h
        · rw [abs_of_neg h]; omega
        · rw [abs_of_pos h]; omega
      have : m.rows ≤ |(j - b) * m.rows| := by
        rw [abs_mul, abs_of_nonneg (by omega : (0:ℤ) ≤ m.rows)]
        nlinarith
      rw [hrows] at this
      have : |a - i| < m.rows := by
        rw [abs_lt]; omega
      omega
    refine ⟨?_, hjb⟩
    rw [hjb] at heq
    omega

/-- Reading back the cell just written returns the written value, for
in-range indices of a well-formed view. -/
theorem bufRead_bufWrite_same (m : Matrix) (i j : ℤ) (v : ℚ) (hw : Wf m)
    (hi0 : 0 ≤ i) (hi : i < m.rows) (hj0 : 0 ≤ j) (hj : j < m.cols) :
    bufRead (bufWrite m i j v) i j = v := by
  obtain ⟨hge, hlt⟩ := offset_inbounds m i j hw hi0 hi hj0 hj
  unfold bufRead
  rw [offsetOf_bufWrite]
  rw [if_pos hge]
  unfold bufWrite
  dsimp only
  rw [if_pos hge]
  dsimp only
  have hnat : (offsetOf m i j).toNat < m.data.length := by omega
  rw [List.getD_eq_getElem?_getD]
  rw [List.getElem?_set_self (by simpa using hnat)]
  simp

/-- Writing one in-range cell does not change reads of any other
in-range cell. -/
theorem bufRead_bufWrite_ne (m : Matrix) (i j a b : ℤ) (v : ℚ) (hw : Wf m)
    (hi0 : 0 ≤ i) (hi : i < m.rows) (hj0 : 0 ≤ j) (hj : j < m.cols)
    (ha0 : 0 ≤ a) (ha : a < m.rows) (hb0 : 0 ≤ b) (hb : b < m.cols)
    (hne : ¬(i = a ∧ j = b)) :
    bufRead (bufWrite m a b v) i j = bufRead m i j := by
  have hoff : offsetOf m i j ≠ offsetOf m a b := fun h =>
    hne (offset_inj m i j a b hw hi0 hi hj0 hj ha0 ha hb0 hb h)
  obtain ⟨hge, _⟩ := offset_inbounds m i j hw hi0 hi hj0 hj
  obtain ⟨hge', _⟩ := offset_inbounds m a b hw ha0 ha hb0 hb
  unfold bufRead
  rw [offsetOf_bufWrite]
  rw [if_pos hge, if_pos hge]
  unfold bufWrite
  dsimp only
  rw [if_pos hge']
  dsimp only
  rw [List.getD_eq_getElem?_getD, List.getD_eq_getElem?_getD]
  rw [List.getElem?_set_ne]
  omega

end CoreLemmas

section EvalLemmas

theorem intRange_00 : intRange 0 0 = [] := by decide
theorem intRange_01 : intRange 0 1 = [0] := by decide
theorem intRange_02 : intRange 0 2 = [0, 1] := by decide
theorem intRange_12 : intRange 1 2 = [1] := by decide
theorem intRange_22 : intRange 2 2 = [] := by decide

theorem int_toNat_0 : (0 : ℤ).toNat = 0 := rfl
theorem int_toNat_1 : (1 : ℤ).toNat = 1 := rfl
theorem int_toNat_2 : (2 : ℤ).toNat = 2 := rfl
theorem int_toNat_3 : (3 : ℤ).toNat = 3 := rfl
theorem int_toNat_4 : (4 : ℤ).toNat = 4 := rfl

set_option maxHeartbeats 1000000 in
theorem eval_dgetrf_cm :
    LinearEquations.dgetrf ⟨[2, 1, 1, 3], 2, 2, .colMajor, 2⟩ [0, 0]
      = (⟨[2, 1/2, 1, 5/2], 2, 2, .colMajor, 2⟩, [1, 2], 0) := by
  norm_num [LinearEquations.dgetrf, LinearEquations.dgetrfLoop, LinearEquations.pivotScan,
    LinearEquations.swapRowsGetrf, LinearEquations.eliminateCol,
    LinearEquations.getElement, LinearEquations.setElement, bufRead, bufWrite, offsetOf,
    intRange_01, intRange_02, intRange_12, intRange_22,
    List.replicate, List.set, int_toNat_0, int_toNat_1, int_toNat_2, int_toNat_3]

set_option maxHeartbeats 1000000 in
theorem eval_dgetrs_cm :
    LinearEquations.dgetrs .N ⟨[2, 1/2, 1, 5/2], 2, 2, .colMajor, 2⟩ [1, 2]
        ⟨[3, 4], 2, 1, .colMajor, 2⟩
      = .ok (⟨[1, 1], 2, 1, .colMajor, 2⟩, 0) := by
  norm_num [LinearEquations.dgetrs,
    LinearEquations.getElement, LinearEquations.setElement, bufRead, bufWrite, offsetOf,
    intRange_00, intRange_01, intRange_02, intRange_12, intRange_22,
    List.replicate, List.set, int_toNat_0, int_toNat_1, int_toNat_2, int_toNat_3]

set_option maxHeartbeats 1000000 in
theorem eval_dgesv_cm_false :
    LinearEquations.dgesv Acm Bcm false = .ok ⟨0, some ⟨solC, luC, [1, 2]⟩, Acm, Bcm⟩ := by
  norm_num [LinearEquations.dgesv, Utils.validateParameters, Utils.createFloat64Matrix,
    Utils.createMatrix, Utils.copyMatrix, Utils.typedArraySet, Acm, Bcm, solC, luC,
    List.replicate, List.set, List.take, List.drop,
    eval_dgetrf_cm, eval_dgetrs_cm,
    int_toNat_0, int_toNat_1, int_toNat_2, int_toNat_3, int_toNat_4]

set_option maxHeartbeats 1000000 in
theorem eval_dgesv_cm_true :
    LinearEquations.dgesv Acm Bcm true = .ok ⟨0, some ⟨solC, luC, [1, 2]⟩, luC, solC⟩ := by
  norm_num [LinearEquations.dgesv, Utils.validateParameters, Acm, Bcm, solC, luC,
    List.replicate, eval_dgetrf_cm, eval_dgetrs_cm,
    int_toNat_0, int_toNat_1, int_toNat_2, int_toNat_3, int_toNat_4]

set_option maxHeartbeats 1000000 in
theorem eval_dgetrf_rm :
    LinearEquations.dgetrf ⟨[2, 1, 1, 3], 2, 2, .rowMajor, 2⟩ [0, 0]
      = (⟨[2, 1, 1/2, 5/2], 2, 2, .rowMajor, 2⟩, [1, 2], 0) := by
  norm_num [LinearEquations.dgetrf, LinearEquations.dgetrfLoop, LinearEquations.pivotScan,
    LinearEquations.swapRowsGetrf, LinearEquations.eliminateCol,
    LinearEquations.getElement, LinearEquations.setElement, bufRead, bufWrite, offsetOf,
    intRange_01, intRange_02, intRange_12, intRange_22,
    List.replicate, List.set, int_toNat_0, int_toNat_1, int_toNat_2, int_toNat_3]

set_option maxHeartbeats 1000000 in
theorem eval_dgetrs_rm :
    LinearEquations.dgetrs .N ⟨[2, 1, 1/2, 5/2], 2, 2, .rowMajor, 2⟩ [1, 2]
        ⟨[3, 4], 2, 1, .colMajor, 2⟩
      = .ok (⟨[1, 1], 2, 1, .colMajor, 2⟩, 0) := by
  norm_num [LinearEquations.dgetrs,
    LinearEquations.getElement, LinearEquations.setElement, bufRead, bufWrite, offsetOf,
    intRange_00, intRange_01, intRange_02, intRange_12, intRange_22,
    List.replicate, List.set, int_toNat_0, int_toNat_1, int_toNat_2, int_toNat_3]

set_option maxHeartbeats 1000000 in
theorem eval_dgesv_rm_false :
    LinearEquations.dgesv Arm Bcm false = .ok ⟨0, some ⟨solC, luRm, [1, 2]⟩, Arm, Bcm⟩ := by
  norm_num [LinearEquations.dgesv, Utils.validateParameters, Utils.createFloat64Matrix,
    Utils.createMatrix, Utils.copyMatrix, Utils.typedArraySet, Arm, Bcm, solC, luRm,
    List.replicate, List.set, List.take, List.drop,
    eval_dgetrf_rm, eval_dgetrs_rm,
    int_toNat_0, int_toNat_1, int_toNat_2, int_toNat_3, int_toNat_4]

end EvalLemmas

section ClaimC4

/-- C4: for every input, dgesv returns status -1 with an unpopulated
result whenever A is not square, and likewise whenever the row counts of
A and B differ. -/
theorem C4_shape_mismatch (A B : Matrix) (ow : Bool) :
    (A.rows ≠ A.cols →
      LinearEquations.dgesv A B ow = .ok ⟨-1, none, A, B⟩)
    ∧ (A.rows ≠ B.rows →
      LinearEquations.dgesv A B ow = .ok ⟨-1, none, A, B⟩) := by
  constructor
  · intro h
    unfold LinearEquations.dgesv
    rw [if_pos h]
  · intro h
    unfold LinearEquations.dgesv
    by_cases hsq : A.rows = A.cols
    · rw [if_neg (fun hh => hh hsq), if_pos h]
    · rw [if_pos hsq]

/-- Witness for C4 at concrete inputs: a 2x3 A, and a 3x3 A against a
2x1 B. -/
theorem C4_shape_mismatch_witness :
    LinearEquations.dgesv A23 B21 false = .ok ⟨-1, none, A23, B21⟩
    ∧ LinearEquations.dgesv A33 B21 false = .ok ⟨-1, none, A33, B21⟩ :=
  ⟨(C4_shape_mismatch A23 B21 false).1 (by decide),
   (C4_shape_mismatch A33 B21 false).2 (by decide)⟩

end ClaimC4

section SimulationMachinery

theorem mem_intRangeAux {lo x : ℤ} : ∀ {len : ℕ},
    x ∈ intRangeAux lo len ↔ lo ≤ x ∧ x < lo + len := by
  intro len
  induction len generalizing lo with
  | zero => simp [intRangeAux]
  | succ m ih =>
    simp only [intRangeAux, List.mem_cons, ih]
    omega

theorem mem_intRange {lo hi x : ℤ} : x ∈ intRange lo hi ↔ lo ≤ x ∧ x < hi := by
  unfold intRange
  rw [mem_intRangeAux]
  omega

/-- Parallel fold: a relation preserved by each paired step is preserved
by the paired folds. -/
theorem foldl_rel {α α' β : Type} (R : α → α' → Prop) (f : α → β → α) (g : α' → β → α')
    (l : List β) (h : ∀ x x' b, R x x' → b ∈ l → R (f x b) (g x' b)) :
    ∀ x x', R x x' → R (l.foldl f x) (l.foldl g x') := by
  induction l with
  | nil => intro x x' hx; simpa using hx
  | cons a t ih =>
    intro x x' hx
    simp only [List.foldl_cons]
    exact ih (fun y y' b hy hb => h y y' b hy (List.mem_cons_of_mem _ hb)) _ _
      (h x x' a hx (List.mem_cons_self _ _))

/-- Fold invariant. -/
theorem foldl_inv {α β : Type} (P : α → Prop) (f : α → β → α) (l : List β)
    (h : ∀ x b, P x → b ∈ l → P (f x b)) : ∀ x, P x → P (l.foldl f x) := by
  induction l with
  | nil => intro x hx; simpa using hx
  | cons a t ih =>
    intro x hx
    simp only [List.foldl_cons]
    exact ih (fun y b hy hb => h y b hy (List.mem_cons_of_mem _ hb)) _
      (h x a hx (List.mem_cons_self _ _))

/-- When every step of an Option-valued fold succeeds and matches a pure
step (under an invariant), the monadic fold returns the pure fold. -/
theorem foldlM_option_eq {α β : Type} (P : α → Prop) (f : α → β → Option α) (g : α → β → α)
    (l : List β) (h : ∀ x b, P x → b ∈ l → f x b = some (g x b) ∧ P (g x b)) :
    ∀ x, P x → l.foldlM f x = some (l.foldl g x) ∧ P (l.foldl g x) := by
  induction l with
  | nil => intro x hx; exact ⟨rfl, hx⟩
  | cons a t ih =>
    intro x hx
    obtain ⟨hstep, hp⟩ := h x a hx (List.mem_cons_self _ _)
    simp only [List.foldlM_cons, List.foldl_cons, hstep, Option.bind_eq_bind,
      Option.some_bind]
    exact ih (fun y b hy hb => h y b hy (List.mem_cons_of_mem _ hb)) _ hp

/-- Except version of the monadic-fold agreement lemma. -/
theorem foldlM_except_eq {α β : Type} (P : α → Prop) (f : α → β → Except JsError α)
    (g : α → β → α) (l : List β)
    (h : ∀ x b, P x → b ∈ l → f x b = .ok (g x b) ∧ P (g x b)) :
    ∀ x, P x → l.foldlM f x = .ok (l.foldl g x) ∧ P (l.foldl g x) := by
  induction l with
  | nil => intro x hx; exact ⟨rfl, hx⟩
  | cons a t ih =>
    intro x hx
    obtain ⟨hstep, hp⟩ := h x a hx (List.mem_cons_self _ _)
    simp only [List.foldlM_cons, List.foldl_cons, hstep]
    have hbind : (Except.ok (g x a) : Except JsError α) >>=
        (fun y => List.foldlM f y t) = List.foldlM f (g x a) t := rfl
    rw [hbind]
    exact ih (fun y b hy hb => h y b hy (List.mem_cons_of_mem _ hb)) _ hp

/-- The pivot scan's selected row never lies below k, and lies below n
unless it is k itself. -/
theorem pivotScan_fst_bounds (A : Matrix) (k n : ℤ) :
    k ≤ (LinearEquations.pivotScan A k n).1 ∧
    ((LinearEquations.pivotScan A k n).1 < n ∨ (LinearEquations.pivotScan A k n).1 = k) := by
  unfold LinearEquations.pivotScan
  exact foldl_inv (fun acc : ℤ × ℚ => k ≤ acc.1 ∧ (acc.1 < n ∨ acc.1 = k))
    (fun acc i =>
      let val := |LinearEquations.getElement A i k|
      if acc.2 < val then (i, val) else acc)
    (intRange (k + 1) n)
    (by
      intro acc i hacc hi
      have hmem := mem_intRange.mp hi
      dsimp only
      split
      · exact ⟨by omega, Or.inl (by omega)⟩
      · exact hacc)
    (k, |LinearEquations.getElement A k k|) ⟨le_refl _, Or.inr rfl⟩


theorem SimM_self (r c : ℤ) (m : Matrix) (h1 : m.rows = r) (h2 : m.cols = c) (hw : Wf m) :
    SimM r c m m :=
  ⟨h1, h2, h1, h2, hw, hw, fun _ _ _ _ _ _ => rfl⟩

theorem SimM_read {r c : ℤ} {m m' : Matrix} (h : SimM r c m m') {i j : ℤ}
    (hi0 : 0 ≤ i) (hi : i < r) (hj0 : 0 ≤ j) (hj : j < c) :
    bufRead m i j = bufRead m' i j :=
  h.2.2.2.2.2.2 i j hi0 hi hj0 hj

theorem SimM_write {r c : ℤ} {m m' : Matrix} (h : SimM r c m m') (i j : ℤ) (v : ℚ)
    (hi0 : 0 ≤ i) (hi : i < r) (hj0 : 0 ≤ j) (hj : j < c) :
    SimM r c (bufWrite m i j v) (bufWrite m' i j v) := by
  obtain ⟨h1, h2, h3, h4, hw, hw', he⟩ := h
  refine ⟨by rw [bufWrite_rows]; exact h1, by rw [bufWrite_cols]; exact h2,
    by rw [bufWrite_rows]; exact h3, by rw [bufWrite_cols]; exact h4,
    bufWrite_wf _ _ _ _ hw, bufWrite_wf _ _ _ _ hw', ?_⟩
  intro a b ha0 ha hb0 hb
  by_cases hab : a = i ∧ b = j
  · obtain ⟨rfl, rfl⟩ := hab
    rw [bufRead_bufWrite_same m _ _ v hw ha0 (by omega) hb0 (by omega),
        bufRead_bufWrite_same m' _ _ v hw' ha0 (by omega) hb0 (by omega)]
  · rw [bufRead_bufWrite_ne m a b i j v hw ha0 (by omega) hb0 (by omega)
        hi0 (by omega) hj0 (by omega) hab,
        bufRead_bufWrite_ne m' a b i j v hw' ha0 (by omega) hb0 (by omega)
        hi0 (by omega) hj0 (by omega) hab]
    exact he a b ha0 ha hb0 hb

/-- The pivot scan returns the same pair on two simulation-related
square states. -/
theorem pivotScan_congr {n : ℤ} {A A' : Matrix} (h : SimM n n A A') (k : ℤ)
    (hk0 : 0 ≤ k) (hk : k < n) :
    LinearEquations.pivotScan A k n = LinearEquations.pivotScan A' k n := by
  unfold LinearEquations.pivotScan
  have hget : ∀ i : ℤ, k ≤ i → i < n →
      LinearEquations.getElement A i k = LinearEquations.getElement A' i k := by
    intro i hi1 hi2
    exact SimM_read h (by omega) (by omega) hk0 hk
  rw [hget k (le_refl _) hk]
  apply List.foldl_ext
  intro acc i hi
  have hmem := mem_intRange.mp hi
  rw [hget i (by omega) (by omega)]

/-- The row-interchange fold preserves the simulation relation: both
runs swap the same logical cells with the same values. -/
theorem swapFold_sim {rr cc : ℤ} (k r : ℤ) (L : List ℤ)
    (hk0 : 0 ≤ k) (hk : k < rr) (hr0 : 0 ≤ r) (hr : r < rr)
    (hL : ∀ j ∈ L, 0 ≤ j ∧ j < cc) :
    ∀ m m', SimM rr cc m m' →
      SimM rr cc
        (L.foldl (fun M j => LinearEquations.setElement
            (LinearEquations.setElement M k j (LinearEquations.getElement M r j)) r j
            (LinearEquations.getElement M k j)) m)
        (L.foldl (fun M j => LinearEquations.setElement
            (LinearEquations.setElement M k j (LinearEquations.getElement M r j)) r j
            (LinearEquations.getElement M k j)) m') := by
  apply foldl_rel
  intro m m' j hm hj
  obtain ⟨hj0, hjc⟩ := hL j hj
  unfold LinearEquations.setElement LinearEquations.getElement
  have e1 : bufRead m r j = bufRead m' r j := SimM_read hm hr0 hr hj0 hjc
  have e2 : bufRead m k j = bufRead m' k j := SimM_read hm hk0 hk hj0 hjc
  rw [e1, e2]
  exact SimM_write (SimM_write hm k j _ hk0 hk hj0 hjc) r j _ hr0 hr hj0 hjc

/-- swapRowsGetrf preserves the simulation relation on square states. -/
theorem swapRowsGetrf_sim {n : ℤ} {A A' : Matrix} (h : SimM n n A A') (k r : ℤ)
    (hk0 : 0 ≤ k) (hk : k < n) (hr0 : 0 ≤ r) (hr : r < n) :
    SimM n n (LinearEquations.swapRowsGetrf A k r n) (LinearEquations.swapRowsGetrf A' k r n) := by
  unfold LinearEquations.swapRowsGetrf
  exact swapFold_sim k r (intRange 0 n) hk0 hk hr0 hr
    (fun j hj => mem_intRange.mp hj) A A' h


/-- The elimination fold preserves the simulation relation on square
states. -/
theorem eliminateCol_sim {n : ℤ} {A A' : Matrix} (h : SimM n n A A') (k : ℤ)
    (hk0 : 0 ≤ k) (hk : k < n) :
    SimM n n (LinearEquations.eliminateCol A k n) (LinearEquations.eliminateCol A' k n) := by
  simp only [LinearEquations.eliminateCol]
  have hpiv : LinearEquations.getElement A k k = LinearEquations.getElement A' k k :=
    SimM_read h hk0 hk hk0 hk
  rw [hpiv]
  apply foldl_rel (R := SimM n n) _ _ _ ?_ A A' h
  intro m m' i hm hi
  have hmem := mem_intRange.mp hi
  have hfac : LinearEquations.getElement m i k = LinearEquations.getElement m' i k :=
    SimM_read hm (by omega) (by omega) hk0 hk
  rw [hfac]
  apply foldl_rel (R := SimM n n) _ _ _ ?_ _ _
    (SimM_write hm i k _ (by omega) (by omega) hk0 hk)
  intro M M' j hM hj
  have hjm := mem_intRange.mp hj
  have e1 : LinearEquations.getElement M i j = LinearEquations.getElement M' i j :=
    SimM_read hM (by omega) (by omega) (by omega) (by omega)
  have e2 : LinearEquations.getElement M k j = LinearEquations.getElement M' k j :=
    SimM_read hM hk0 hk (by omega) (by omega)
  unfold LinearEquations.setElement
  rw [e1, e2]
  exact SimM_write hM i j _ (by omega) (by omega) (by omega) (by omega)

/-- The whole factorization loop: two simulation-related square states
produce the same pivots, the same info and simulation-related factored
matrices. -/
theorem dgetrfLoop_sim (n : ℤ) :
    ∀ (fuel : ℕ) (k : ℤ) (A A' : Matrix) (ipiv : List ℤ), 0 ≤ k → SimM n n A A' →
      (LinearEquations.dgetrfLoop n fuel k A ipiv).2.1
          = (LinearEquations.dgetrfLoop n fuel k A' ipiv).2.1
      ∧ (LinearEquations.dgetrfLoop n fuel k A ipiv).2.2
          = (LinearEquations.dgetrfLoop n fuel k A' ipiv).2.2
      ∧ SimM n n (LinearEquations.dgetrfLoop n fuel k A ipiv).1
          (LinearEquations.dgetrfLoop n fuel k A' ipiv).1 := by
  intro fuel
  induction fuel with
  | zero => intro k A A' ipiv hk h; exact ⟨rfl, rfl, h⟩
  | succ f ih =>
    intro k A A' ipiv hk h
    by_cases hkn : k < n
    · have hscan := pivotScan_congr h k hk hkn
      simp only [LinearEquations.dgetrfLoop, if_pos hkn]
      rw [hscan]
      by_cases hz : (LinearEquations.pivotScan A' k n).2 = 0
      · rw [if_pos hz, if_pos hz]
        exact ⟨rfl, rfl, h⟩
      · rw [if_neg hz, if_neg hz]
        have hbounds := pivotScan_fst_bounds A' k n
        by_cases hmr : (LinearEquations.pivotScan A' k n).1 ≠ k
        · rw [if_pos hmr, if_pos hmr]
          have hswap := swapRowsGetrf_sim h k (LinearEquations.pivotScan A' k n).1
            hk hkn (by omega) (by rcases hbounds.2 with h1 | h1; exact h1; omega)
          exact ih (k + 1) _ _ _ (by omega)
            (eliminateCol_sim hswap k hk hkn)
        · rw [if_neg hmr, if_neg hmr]
          exact ih (k + 1) _ _ _ (by omega) (eliminateCol_sim h k hk hkn)
    · simp only [LinearEquations.dgetrfLoop, if_neg hkn]
      exact ⟨trivial, trivial, h⟩


/-- Through the factorization loop the pivot array keeps its length, and
on a successful return every entry (given enough fuel to reach n) is a
1-based row index in [1, n]. -/
theorem dgetrfLoop_pivot_bounds (n : ℤ) :
    ∀ (fuel : ℕ) (k : ℤ) (A : Matrix) (ipiv : List ℤ), 0 ≤ k → n ≤ k + fuel →
      ipiv.length = n.toNat →
      (∀ t : ℕ, t < k.toNat → 1 ≤ ipiv.getD t 0 ∧ ipiv.getD t 0 ≤ n) →
      (LinearEquations.dgetrfLoop n fuel k A ipiv).2.2 = 0 →
      (LinearEquations.dgetrfLoop n fuel k A ipiv).2.1.length = n.toNat ∧
      ∀ t : ℕ, t < n.toNat →
        1 ≤ (LinearEquations.dgetrfLoop n fuel k A ipiv).2.1.getD t 0 ∧
        (LinearEquations.dgetrfLoop n fuel k A ipiv).2.1.getD t 0 ≤ n := by
  intro fuel
  induction fuel with
  | zero =>
    intro k A ipiv hk hfuel hlen hprev _
    exact ⟨hlen, fun t ht => hprev t (by omega)⟩
  | succ f ih =>
    intro k A ipiv hk hfuel hlen hprev hinfo
    by_cases hkn : k < n
    · have hbounds := pivotScan_fst_bounds A k n
      simp only [LinearEquations.dgetrfLoop, if_pos hkn] at hinfo ⊢
      have hklt : k.toNat < ipiv.length := by omega
      have hset : ∀ t : ℕ, t < (k + 1).toNat →
          1 ≤ (ipiv.set k.toNat ((LinearEquations.pivotScan A k n).1 + 1)).getD t 0 ∧
          (ipiv.set k.toNat ((LinearEquations.pivotScan A k n).1 + 1)).getD t 0 ≤ n := by
        intro t ht
        by_cases htk : t = k.toNat
        · subst htk
          rw [List.getD_eq_getElem?_getD, List.getElem?_set_self (by simpa using hklt)]
          simp only [Option.getD_some]
          constructor
          · omega
          · rcases hbounds.2 with h1 | h1 <;> omega
        · rw [List.getD_eq_getElem?_getD, List.getElem?_set_ne (by omega),
            ← List.getD_eq_getElem?_getD]
          exact hprev t (by omega)
      by_cases hz : (LinearEquations.pivotScan A k n).2 = 0
      · rw [if_pos hz] at hinfo
        exact absurd hinfo (by simp; omega)
      · rw [if_neg hz] at hinfo ⊢
        exact ih (k + 1) _ _ (by omega) (by omega) (by simpa using hlen) hset hinfo
    · simp only [LinearEquations.dgetrfLoop, if_neg hkn] at hinfo ⊢
      exact ⟨hlen, fun t ht => hprev t (by omega)⟩


/-- The triangular solve: two simulation-related factored matrices and
right-hand-side blocks, with the same in-range pivot array, give
simulation-related solutions (and both runs return info 0). -/
theorem dgetrs_sim {n nrhs : ℤ} {A A' B B' : Matrix} (hA : SimM n n A A')
    (hB : SimM n nrhs B B') (p : List ℤ)
    (hp : ∀ k : ℤ, 0 ≤ k → k < n → 1 ≤ p.getD k.toNat 0 ∧ p.getD k.toNat 0 ≤ n) :
    ∃ C C', LinearEquations.dgetrs .N A p B = .ok (C, 0)
      ∧ LinearEquations.dgetrs .N A' p B' = .ok (C', 0)
      ∧ SimM n nrhs C C' := by
  have hAr : A.rows = n := hA.1
  have hAr' : A'.rows = n := hA.2.2.1
  have hBc : B.cols = nrhs := hB.2.1
  have hBc' : B'.cols = nrhs := hB.2.2.2.1
  refine ⟨_, _, rfl, rfl, ?_⟩
  simp only [LinearEquations.dgetrs, hAr, hAr', hBc, hBc']
  -- back substitution preserves the relation
  apply foldl_rel (R := SimM n nrhs) _ _ _ ?backstep
  case backstep =>
    intro M M' k hM hk
    have hkm := mem_intRange.mp (List.mem_reverse.mp hk)
    have hpiv : LinearEquations.getElement A k k = LinearEquations.getElement A' k k :=
      SimM_read hA (by omega) (by omega) (by omega) (by omega)
    rw [hpiv]
    apply foldl_rel (R := SimM n nrhs) _ _ _ ?backinner
    case backinner =>
      intro M2 M2' i hM2 hi
      have him := mem_intRange.mp hi
      have hf : LinearEquations.getElement A i k = LinearEquations.getElement A' i k :=
        SimM_read hA (by omega) (by omega) (by omega) (by omega)
      rw [hf]
      apply foldl_rel (R := SimM n nrhs) _ _ _ ?backinner2 _ _ hM2
      case backinner2 =>
        intro M3 M3' j hM3 hj
        have hjm := mem_intRange.mp hj
        have e1 : LinearEquations.getElement M3 i j = LinearEquations.getElement M3' i j :=
          SimM_read hM3 (by omega) (by omega) (by omega) (by omega)
        have e2 : LinearEquations.getElement M3 k j = LinearEquations.getElement M3' k j :=
          SimM_read hM3 (by omega) (by omega) (by omega) (by omega)
        unfold LinearEquations.setElement
        rw [e1, e2]
        exact SimM_write hM3 i j _ (by omega) (by omega) (by omega) (by omega)
    -- the division pass over row k
    apply foldl_rel (R := SimM n nrhs) _ _ _ ?divstep _ _ hM
    case divstep =>
      intro M2 M2' j hM2 hj
      have hjm := mem_intRange.mp hj
      have e1 : LinearEquations.getElement M2 k j = LinearEquations.getElement M2' k j :=
        SimM_read hM2 (by omega) (by omega) (by omega) (by omega)
      unfold LinearEquations.setElement
      rw [e1]
      exact SimM_write hM2 k j _ (by omega) (by omega) (by omega) (by omega)
  -- forward substitution preserves the relation
  apply foldl_rel (R := SimM n nrhs) _ _ _ ?fwdstep
  case fwdstep =>
    intro M M' k hM hk
    have hkm := mem_intRange.mp hk
    apply foldl_rel (R := SimM n nrhs) _ _ _ ?fwdinner _ _ hM
    case fwdinner =>
      intro M2 M2' i hM2 hi
      have him := mem_intRange.mp hi
      have hf : LinearEquations.getElement A i k = LinearEquations.getElement A' i k :=
        SimM_read hA (by omega) (by omega) (by omega) (by omega)
      rw [hf]
      apply foldl_rel (R := SimM n nrhs) _ _ _ ?fwdinner2 _ _ hM2
      case fwdinner2 =>
        intro M3 M3' j hM3 hj
        have hjm := mem_intRange.mp hj
        have e1 : LinearEquations.getElement M3 i j = LinearEquations.getElement M3' i j :=
          SimM_read hM3 (by omega) (by omega) (by omega) (by omega)
        have e2 : LinearEquations.getElement M3 k j = LinearEquations.getElement M3' k j :=
          SimM_read hM3 (by omega) (by omega) (by omega) (by omega)
        unfold LinearEquations.setElement
        rw [e1, e2]
        exact SimM_write hM3 i j _ (by omega) (by omega) (by omega) (by omega)
  -- row interchanges preserve the relation
  apply foldl_rel (R := SimM n nrhs) _ _ _ ?swapstep _ _ hB
  case swapstep =>
    intro M M' k hM hk
    have hkm := mem_intRange.mp hk
    by_cases hpr : p.getD k.toNat 0 - 1 ≠ k
    · rw [if_pos hpr, if_pos hpr]
      have hpk := hp k (by omega) (by omega)
      exact swapFold_sim k (p.getD k.toNat 0 - 1) (intRange 0 nrhs)
        (by omega) (by omega) (by omega) (by omega)
        (fun j hj => mem_intRange.mp hj) M M' hM
    · rw [if_neg hpr, if_neg hpr]
      exact hM


/-- Same view metadata and buffer size: everything except the stored
values. -/
def Frame (t0 t : Matrix) : Prop :=
  t.rows = t0.rows ∧ t.cols = t0.cols ∧ t.layout = t0.layout ∧
  t.leadingDimension = t0.leadingDimension ∧ t.data.length = t0.data.length

theorem Frame_refl (t : Matrix) : Frame t t := ⟨rfl, rfl, rfl, rfl, rfl⟩

theorem Frame_bufWrite {t0 t : Matrix} (h : Frame t0 t) (i j : ℤ) (v : ℚ) :
    Frame t0 (bufWrite t i j v) := by
  obtain ⟨h1, h2, h3, h4, h5⟩ := h
  exact ⟨by rw [bufWrite_rows]; exact h1, by rw [bufWrite_cols]; exact h2,
    by rw [bufWrite_layout]; exact h3, by rw [bufWrite_ld]; exact h4,
    by rw [bufWrite_length]; exact h5⟩

theorem Frame_trans {a b c : Matrix} (h1 : Frame a b) (h2 : Frame b c) : Frame a c := by
  obtain ⟨x1, x2, x3, x4, x5⟩ := h1
  obtain ⟨y1, y2, y3, y4, y5⟩ := h2
  exact ⟨y1.trans x1, y2.trans x2, y3.trans x3, y4.trans x4, y5.trans x5⟩

theorem Wf_of_frame {t0 t : Matrix} (h : Frame t0 t) (hw : Wf t0) : Wf t := by
  obtain ⟨h1, h2, h3, h4, h5⟩ := h
  obtain ⟨w1, w2, w3, w4⟩ := hw
  refine ⟨by omega, by omega, ?_, ?_⟩
  · rw [h3, h4, h1, h2]
    exact w3
  · rw [h1, h2, h5]
    exact w4

/-- Reads after one copied row: positions (i, j) with j among the
processed columns hold the source value, everything else is
untouched. -/
theorem copyInner_read (S : Matrix) (i : ℤ) (hi0 : 0 ≤ i) (hii : i < S.rows) :
    ∀ (L : List ℤ), (∀ j ∈ L, 0 ≤ j ∧ j < S.cols) →
    ∀ t : Matrix, t.rows = S.rows → t.cols = S.cols → Wf t →
      (Frame t (L.foldl (fun t2 j => bufWrite t2 i j (bufRead S i j)) t) ∧
       ∀ a b : ℤ, 0 ≤ a → a < S.rows → 0 ≤ b → b < S.cols →
        bufRead (L.foldl (fun t2 j => bufWrite t2 i j (bufRead S i j)) t) a b =
          (if a = i ∧ b ∈ L then bufRead S a b else bufRead t a b)) := by
  intro L
  induction L with
  | nil =>
    intro _ t _ _ _
    refine ⟨Frame_refl t, ?_⟩
    intro a b _ _ _ _
    simp
  | cons j L' ih =>
    intro hL t htr htc hw
    obtain ⟨hj0, hjc⟩ := hL j (List.mem_cons_self _ _)
    have hw' : Wf (bufWrite t i j (bufRead S i j)) := bufWrite_wf _ _ _ _ hw
    have htr' : (bufWrite t i j (bufRead S i j)).rows = S.rows := by
      rw [bufWrite_rows]; exact htr
    have htc' : (bufWrite t i j (bufRead S i j)).cols = S.cols := by
      rw [bufWrite_cols]; exact htc
    obtain ⟨hfr, hrd⟩ := ih (fun j' hj' => hL j' (List.mem_cons_of_mem _ hj'))
      (bufWrite t i j (bufRead S i j)) htr' htc' hw'
    simp only [List.foldl_cons]
    constructor
    · exact Frame_trans (Frame_bufWrite (Frame_refl t) i j _) hfr
    · intro a b ha0 ha hb0 hb
      rw [hrd a b ha0 ha hb0 hb]
      by_cases h1 : a = i ∧ b ∈ L'
      · rw [if_pos h1, if_pos ⟨h1.1, List.mem_cons_of_mem _ h1.2⟩]
      · rw [if_neg h1]
        by_cases h2 : a = i ∧ b = j
        · obtain ⟨rfl, rfl⟩ := h2
          rw [bufRead_bufWrite_same t _ _ _ hw ha0 (by omega) hb0 (by omega),
            if_pos ⟨rfl, List.mem_cons_self _ _⟩]
        · rw [bufRead_bufWrite_ne t a b i j _ hw ha0 (by omega) hb0 (by omega)
            hi0 (by omega) hj0 (by omega) h2]
          rw [if_neg (by
            rintro ⟨rfl, hbc⟩
            rcases List.mem_cons.mp hbc with h | h
            · exact h2 ⟨rfl, h⟩
            · exact h1 ⟨rfl, h⟩)]


/-- Reads after the whole element-wise copy loop: every position in a
processed row holds the source value. -/
theorem copyOuter_read (S : Matrix) :
    ∀ (LI : List ℤ), (∀ i ∈ LI, 0 ≤ i ∧ i < S.rows) →
    ∀ t : Matrix, t.rows = S.rows → t.cols = S.cols → Wf t →
      (Frame t (LI.foldl (fun t2 i => (intRange 0 S.cols).foldl
          (fun t3 j => bufWrite t3 i j (bufRead S i j)) t2) t) ∧
       ∀ a b : ℤ, 0 ≤ a → a < S.rows → 0 ≤ b → b < S.cols →
        bufRead (LI.foldl (fun t2 i => (intRange 0 S.cols).foldl
          (fun t3 j => bufWrite t3 i j (bufRead S i j)) t2) t) a b =
          (if a ∈ LI then bufRead S a b else bufRead t a b)) := by
  intro LI
  induction LI with
  | nil =>
    intro _ t _ _ _
    refine ⟨Frame_refl t, ?_⟩
    intro a b _ _ _ _
    simp
  | cons i LI' ih =>
    intro hLI t htr htc hw
    obtain ⟨hi0, hir⟩ := hLI i (List.mem_cons_self _ _)
    obtain ⟨hfr1, hrd1⟩ := copyInner_read S i hi0 hir (intRange 0 S.cols)
      (fun j hj => mem_intRange.mp hj) t htr htc hw
    set t1 := (intRange 0 S.cols).foldl (fun t3 j => bufWrite t3 i j (bufRead S i j)) t with ht1
    have htr1 : t1.rows = S.rows := by rw [hfr1.1]; exact htr
    have htc1 : t1.cols = S.cols := by rw [hfr1.2.1]; exact htc
    have hw1 : Wf t1 := Wf_of_frame (by
      obtain ⟨f1, f2, f3, f4, f5⟩ := hfr1
      exact ⟨f1, f2, f3, f4, f5⟩) hw
    obtain ⟨hfr2, hrd2⟩ := ih (fun i' hi' => hLI i' (List.mem_cons_of_mem _ hi')) t1 htr1 htc1 hw1
    simp only [List.foldl_cons]
    constructor
    · exact Frame_trans hfr1 hfr2
    · intro a b ha0 ha hb0 hb
      rw [hrd2 a b ha0 ha hb0 hb]
      by_cases h1 : a ∈ LI'
      · rw [if_pos h1, if_pos (List.mem_cons_of_mem _ h1)]
      · rw [if_neg h1, hrd1 a b ha0 ha hb0 hb]
        by_cases h2 : a = i
        · subst h2
          rw [if_pos ⟨rfl, mem_intRange.mpr ⟨hb0, hb⟩⟩, if_pos (List.mem_cons_self _ _)]
        · rw [if_neg (fun hh => h2 hh.1), if_neg (by
            intro hh
            rcases List.mem_cons.mp hh with h | h
            · exact h2 h
            · exact h1 h)]


/-- Full specification of copyMatrix for equally shaped well-formed
views whose target buffer is exactly dense: the copy succeeds, keeps the
target's metadata and buffer size, and afterwards every in-range read of
the target returns the source value. -/
theorem copyMatrix_spec (S T : Matrix) (hr : S.rows = T.rows) (hc : S.cols = T.cols)
    (hwS : Wf S) (hwT : Wf T) (hTlen : (T.data.length : ℤ) = T.rows * T.cols) :
    ∃ R, Utils.copyMatrix S T = .ok R ∧ Frame T R ∧ Wf R ∧
      ∀ a b : ℤ, 0 ≤ a → a < S.rows → 0 ≤ b → b < S.cols →
        bufRead R a b = bufRead S a b := by
  unfold Utils.copyMatrix
  rw [if_neg (by omega)]
  by_cases hcond : S.layout = T.layout ∧ S.leadingDimension = T.leadingDimension ∧
      S.leadingDimension = S.rows
  · -- bulk transfer
    rw [if_pos hcond]
    have hslen : (S.rows * S.cols).toNat ≤ S.data.length := by
      have := hwS.2.2.2
      omega
    have hsrclen : (S.data.take (S.rows * S.cols).toNat).length = (S.rows * S.cols).toNat := by
      rw [List.length_take]
      omega
    have hdstlen : T.data.length = (S.rows * S.cols).toNat := by
      rw [hr, hc] at *
      omega
    unfold Utils.typedArraySet
    rw [if_neg (by omega)]
    refine ⟨_, rfl, ?_, ?_, ?_⟩
    · refine ⟨rfl, rfl, rfl, rfl, ?_⟩
      simp only [List.length_append, List.length_drop]
      omega
    · refine Wf_of_frame ?_ hwT
      refine ⟨rfl, rfl, rfl, rfl, ?_⟩
      simp only [List.length_append, List.length_drop]
      omega
    · intro a b ha0 ha hb0 hb
      obtain ⟨ho0, holt⟩ := offset_lt_size S a b hwS ha0 ha hb0 hb
      have hoffT : ∀ d : List ℚ, offsetOf { T with data := d } a b = offsetOf S a b := by
        intro d
        unfold offsetOf
        rcases hl : T.layout with _ | _ <;>
          rw [show S.layout = T.layout from hcond.1, hl] <;> dsimp only <;>
          rw [show S.leadingDimension = T.leadingDimension from hcond.2.1]
      unfold bufRead
      dsimp only
      rw [hoffT]
      rw [if_pos ho0, if_pos ho0]
      rw [List.getD_eq_getElem?_getD, List.getD_eq_getElem?_getD,
        List.getElem?_append, if_pos (by omega), List.getElem?_take, if_pos (by omega)]
  · -- element-wise copy
    rw [if_neg hcond]
    have houter := foldlM_except_eq
      (fun t : Matrix => t.rows = T.rows ∧ t.cols = T.cols ∧ Wf t ∧ Frame T t)
      (fun t i => (intRange 0 S.cols).foldlM (fun t2 j =>
        match Utils.getElement S i j with
        | .error e => .error e
        | .ok v => Utils.setElement t2 i j v) t)
      (fun t i => (intRange 0 S.cols).foldl
        (fun t2 j => bufWrite t2 i j (bufRead S i j)) t)
      (intRange 0 S.rows)
      (by
        intro t i ⟨htr, htc, hwt, hft⟩ hi
        have him := mem_intRange.mp hi
        have hinner := foldlM_except_eq
          (fun t2 : Matrix => t2.rows = T.rows ∧ t2.cols = T.cols ∧ Wf t2 ∧ Frame T t2)
          (fun t2 j =>
            match Utils.getElement S i j with
            | .error e => .error e
            | .ok v => Utils.setElement t2 i j v)
          (fun t2 j => bufWrite t2 i j (bufRead S i j))
          (intRange 0 S.cols)
          (by
            intro t2 j ⟨ht2r, ht2c, hwt2, hft2⟩ hj
            have hjm := mem_intRange.mp hj
            have hget : Utils.getElement S i j = .ok (bufRead S i j) := by
              unfold Utils.getElement Utils.validateIndices
              rw [if_neg (by omega), if_neg (by omega)]
            have hset : Utils.setElement t2 i j (bufRead S i j)
                = .ok (bufWrite t2 i j (bufRead S i j)) := by
              unfold Utils.setElement Utils.validateIndices
              rw [if_neg (by omega), if_neg (by omega)]
            dsimp only
            rw [hget]
            refine ⟨hset, ?_, ?_, ?_, ?_⟩
            · rw [bufWrite_rows]; exact ht2r
            · rw [bufWrite_cols]; exact ht2c
            · exact bufWrite_wf _ _ _ _ hwt2
            · exact Frame_trans hft2 (Frame_bufWrite (Frame_refl t2) i j _))
          t ⟨htr, htc, hwt, hft⟩
        exact hinner)
      T ⟨rfl, rfl, hwT, Frame_refl T⟩
    obtain ⟨hfold, _⟩ := houter
    rw [hfold]
    obtain ⟨hframe, hread⟩ := copyOuter_read S (intRange 0 S.rows)
      (fun i hi => mem_intRange.mp hi) T hr.symm hc.symm hwT
    refine ⟨_, rfl, hframe, Wf_of_frame hframe hwT, ?_⟩
    intro a b ha0 ha hb0 hb
    rw [hread a b ha0 ha hb0 hb, if_pos (mem_intRange.mpr ⟨ha0, ha⟩)]


end SimulationMachinery

section ClaimC1

/-- C1 counterexample: constructing the same concrete system row-major
(a supported layout, via the library's own creation and set helpers)
makes dgesv return status -7 with no solution, because the canonical
row-major leading dimension of the 2x1 B is 1 < max(1,2); this refutes
the status-0 promise for every supported layout. -/
theorem C1_layout_counterexample :
    buildM 2 2 .rowMajor [(0,0,2), (0,1,1), (1,0,1), (1,1,3)] = .ok Arm
    ∧ buildM 2 1 .rowMajor [(0,0,3), (1,0,4)] = .ok Brm
    ∧ LinearEquations.dgesv Arm Brm false = .ok ⟨-7, none, Arm, Brm⟩ := by
  refine ⟨by decide, by decide, ?_⟩
  decide

/-- C1 (amended): for A = [[2,1],[1,3]] in either layout and
B = [[3],[4]] in column-major layout, dgesv returns status 0 and a
solution whose entries are exactly 1 (in particular within 1e-10);
a row-major B is rejected with -7 (see the counterexample). -/
theorem C1_concrete_2x2 :
    (buildM 2 2 .colMajor [(0,0,2), (0,1,1), (1,0,1), (1,1,3)] = .ok Acm
      ∧ buildM 2 2 .rowMajor [(0,0,2), (0,1,1), (1,0,1), (1,1,3)] = .ok Arm
      ∧ buildM 2 1 .colMajor [(0,0,3), (1,0,4)] = .ok Bcm)
    ∧ LinearEquations.dgesv Acm Bcm false = .ok ⟨0, some ⟨solC, luC, [1, 2]⟩, Acm, Bcm⟩
    ∧ LinearEquations.dgesv Arm Bcm false = .ok ⟨0, some ⟨solC, luRm, [1, 2]⟩, Arm, Bcm⟩
    ∧ Utils.getElement solC 0 0 = .ok 1
    ∧ Utils.getElement solC 1 0 = .ok 1
    ∧ (∀ x, Utils.getElement solC 0 0 = .ok x → |x - 1| ≤ 1 / 10 ^ 10)
    ∧ (∀ x, Utils.getElement solC 1 0 = .ok x → |x - 1| ≤ 1 / 10 ^ 10) := by
  refine ⟨⟨by decide, by decide, by decide⟩, eval_dgesv_cm_false, eval_dgesv_rm_false,
    by decide, by decide, ?_, ?_⟩
  all_goals
    intro x hx
    have hx1 : x = 1 := by
      have : (Except.ok x : Except JsError ℚ) = .ok 1 := by
        rw [← hx]
        decide
      injection this
    rw [hx1]
    norm_num

/-- Witness for C1's tolerance conjuncts at the computed entry 1. -/
theorem C1_concrete_2x2_witness :
    Utils.getElement solC 0 0 = .ok 1 ∧ |(1:ℚ) - 1| ≤ 1 / 10 ^ 10 :=
  ⟨by decide, (C1_concrete_2x2).2.2.2.2.2.1 1 (by decide)⟩

end ClaimC1

section ClaimC2

/-- C2: if the pivot scan of column k finds a maximum absolute value of
exactly 0, the factorization loop stops at once, records only that pivot
entry, leaves the matrix untouched from that state on (no elimination
for column k or any later column), and the call returns info = k+1; and
every 2x2 matrix whose second row is twice its first (stored
column-major) produces a positive info. -/
theorem C2_zero_pivot_stops (A : Matrix) (ipiv : List ℤ) (n k : ℤ) (fuel : ℕ) :
    (k < n → (LinearEquations.pivotScan A k n).2 = 0 →
      LinearEquations.dgetrfLoop n (fuel + 1) k A ipiv =
        (A, ipiv.set k.toNat ((LinearEquations.pivotScan A k n).1 + 1), k + 1))
    ∧ (∀ a b : ℚ,
        0 < (LinearEquations.dgetrf ⟨[a, 2*a, b, 2*b], 2, 2, .colMajor, 2⟩
          (List.replicate 2 0)).2.2) := by
  constructor
  · intro hk hz
    simp only [LinearEquations.dgetrfLoop]
    rw [if_pos hk, if_pos hz]
  · intro a b
    by_cases ha : a = 0
    · subst ha
      norm_num [LinearEquations.dgetrf, LinearEquations.dgetrfLoop, LinearEquations.pivotScan,
        LinearEquations.getElement, bufRead, offsetOf,
        intRange_12, List.replicate, int_toNat_0, int_toNat_1, int_toNat_2, int_toNat_3]
    · have habs : |a| < |2 * a| := by
        rw [abs_mul]
        have h0 : 0 < |a| := abs_pos.mpr ha
        rw [abs_two]
        linarith
      have hne : |2 * a| ≠ 0 := by
        intro h
        exact ha (by simpa using abs_eq_zero.mp h)
      have hfac : a / (2 * a) = 1 / 2 := by
        field_simp
        ring
      have helim : b - 1 / 2 * (2 * b) = 0 := by ring
      norm_num [LinearEquations.dgetrf, LinearEquations.dgetrfLoop, LinearEquations.pivotScan,
        LinearEquations.swapRowsGetrf, LinearEquations.eliminateCol,
        LinearEquations.getElement, LinearEquations.setElement, bufRead, bufWrite, offsetOf,
        intRange_01, intRange_02, intRange_12, intRange_22, List.replicate, List.set,
        int_toNat_0, int_toNat_1, int_toNat_2, int_toNat_3,
        habs, hne, hfac, helim]

/-- Witness for C2's early-return conjunct on the 1x1 zero matrix. -/
theorem C2_zero_pivot_stops_witness :
    LinearEquations.dgetrfLoop 1 (0 + 1) 0 ⟨[0], 1, 1, .colMajor, 1⟩ [0] =
      (⟨[0], 1, 1, .colMajor, 1⟩,
       [0].set (0:ℤ).toNat ((LinearEquations.pivotScan ⟨[0], 1, 1, .colMajor, 1⟩ 0 1).1 + 1),
       0 + 1) :=
  (C2_zero_pivot_stops ⟨[0], 1, 1, .colMajor, 1⟩ [0] 1 0 0).1 (by decide) (by decide)

end ClaimC2

section ClaimC3

/-- C3: with overwriteInput = false the caller's A and B buffer states
are returned unchanged whatever the returned status; with
overwriteInput = true a successful solve leaves the caller's buffers
equal to the factored matrix and the solved right-hand sides. -/
theorem C3_overwrite_frame (A B : Matrix) :
    (∀ r, LinearEquations.dgesv A B false = .ok r → r.finalA = A ∧ r.finalB = B)
    ∧ (∀ r out, LinearEquations.dgesv A B true = .ok r → r.result = some out →
        r.finalA = out.LU ∧ r.finalB = out.solution) := by
  constructor
  · intro r hr
    simp only [LinearEquations.dgesv] at hr
    repeat' split at hr
    all_goals first
      | exact Except.noConfusion hr
      | (cases hr; simp_all)
      | simp_all
  · intro r out hr hout
    simp only [LinearEquations.dgesv] at hr
    repeat' split at hr
    all_goals first
      | exact Except.noConfusion hr
      | (cases hr; simp_all; rw [← hout]; exact ⟨rfl, rfl⟩)
      | (cases hr; simp_all)
      | simp_all

/-- Witness for C3 on the concrete 2x2 system, in both overwrite
modes. -/
theorem C3_overwrite_frame_witness :
    ((⟨0, some ⟨solC, luC, [1, 2]⟩, Acm, Bcm⟩ : LinearEquations.DgesvReturn).finalA = Acm
      ∧ (⟨0, some ⟨solC, luC, [1, 2]⟩, Acm, Bcm⟩ : LinearEquations.DgesvReturn).finalB = Bcm)
    ∧ ((⟨0, some ⟨solC, luC, [1, 2]⟩, luC, solC⟩ : LinearEquations.DgesvReturn).finalA
        = (⟨solC, luC, [1, 2]⟩ : LinearEquations.DgesvOutput).LU
      ∧ (⟨0, some ⟨solC, luC, [1, 2]⟩, luC, solC⟩ : LinearEquations.DgesvReturn).finalB
        = (⟨solC, luC, [1, 2]⟩ : LinearEquations.DgesvOutput).solution) :=
  ⟨(C3_overwrite_frame Acm Bcm).1 ⟨0, some ⟨solC, luC, [1, 2]⟩, Acm, Bcm⟩ eval_dgesv_cm_false,
   (C3_overwrite_frame Acm Bcm).2 ⟨0, some ⟨solC, luC, [1, 2]⟩, luC, solC⟩
     ⟨solC, luC, [1, 2]⟩ eval_dgesv_cm_true rfl⟩

end ClaimC3

section ClaimC5

/-- C5: once the shape checks pass, dgesv surfaces the validation codes
-1 (n < 0), -2 (nrhs < 0), -4 (lda < max(1,n)) and -7 (ldb < max(1,n)),
the checks being applied in that order. -/
theorem C5_parameter_codes (A B : Matrix) (ow : Bool)
    (hsq : A.rows = A.cols) (hrb : A.rows = B.rows) :
    (A.rows < 0 →
      LinearEquations.dgesv A B ow = .ok ⟨-1, none, A, B⟩)
    ∧ (0 ≤ A.rows → B.cols < 0 →
      LinearEquations.dgesv A B ow = .ok ⟨-2, none, A, B⟩)
    ∧ (0 ≤ A.rows → 0 ≤ B.cols → A.leadingDimension < max 1 A.rows →
      LinearEquations.dgesv A B ow = .ok ⟨-4, none, A, B⟩)
    ∧ (0 ≤ A.rows → 0 ≤ B.cols → max 1 A.rows ≤ A.leadingDimension →
      B.leadingDimension < max 1 A.rows →
      LinearEquations.dgesv A B ow = .ok ⟨-7, none, A, B⟩) := by
  refine ⟨?_, ?_, ?_, ?_⟩
  · intro h
    simp only [LinearEquations.dgesv, Utils.validateParameters]
    rw [if_neg (fun hh => hh hsq), if_neg (fun hh => hh hrb), if_pos h]
  · intro h0 h
    simp only [LinearEquations.dgesv, Utils.validateParameters]
    rw [if_neg (fun hh => hh hsq), if_neg (fun hh => hh hrb),
      if_neg (not_lt.mpr h0), if_pos h]
  · intro h0 h1 h
    simp only [LinearEquations.dgesv, Utils.validateParameters]
    rw [if_neg (fun hh => hh hsq), if_neg (fun hh => hh hrb),
      if_neg (not_lt.mpr h0), if_neg (not_lt.mpr h1), if_pos h]
  · intro h0 h1 h2 h
    simp only [LinearEquations.dgesv, Utils.validateParameters]
    rw [if_neg (fun hh => hh hsq), if_neg (fun hh => hh hrb),
      if_neg (not_lt.mpr h0), if_neg (not_lt.mpr h1), if_neg (not_lt.mpr h2), if_pos h]

/-- Witness for C5: four concrete inputs, one per code. -/
theorem C5_parameter_codes_witness :
    LinearEquations.dgesv ⟨[], -1, -1, .colMajor, 1⟩ ⟨[], -1, 0, .colMajor, 1⟩ false
      = .ok ⟨-1, none, ⟨[], -1, -1, .colMajor, 1⟩, ⟨[], -1, 0, .colMajor, 1⟩⟩
    ∧ LinearEquations.dgesv ⟨[0], 1, 1, .colMajor, 1⟩ ⟨[], 1, -1, .colMajor, 1⟩ false
      = .ok ⟨-2, none, ⟨[0], 1, 1, .colMajor, 1⟩, ⟨[], 1, -1, .colMajor, 1⟩⟩
    ∧ LinearEquations.dgesv ⟨[0], 1, 1, .colMajor, 0⟩ ⟨[0], 1, 1, .colMajor, 1⟩ false
      = .ok ⟨-4, none, ⟨[0], 1, 1, .colMajor, 0⟩, ⟨[0], 1, 1, .colMajor, 1⟩⟩
    ∧ LinearEquations.dgesv ⟨[0], 1, 1, .colMajor, 1⟩ ⟨[0], 1, 1, .colMajor, 0⟩ false
      = .ok ⟨-7, none, ⟨[0], 1, 1, .colMajor, 1⟩, ⟨[0], 1, 1, .colMajor, 0⟩⟩ :=
  ⟨(C5_parameter_codes _ _ false (by decide) (by decide)).1 (by decide),
   (C5_parameter_codes _ _ false (by decide) (by decide)).2.1 (by decide) (by decide),
   (C5_parameter_codes _ _ false (by decide) (by decide)).2.2.1 (by decide) (by decide) (by decide),
   (C5_parameter_codes _ _ false (by decide) (by decide)).2.2.2 (by decide) (by decide) (by decide) (by decide)⟩

end ClaimC5

section ClaimC6

/-- C6 counterexample: with rows = cols = -1 (both negative) the product
is positive, so creation succeeds and returns a matrix with negative
dimensions instead of failing — refuting failure if and only if a
dimension is negative. -/
theorem C6_create_counterexample :
    Utils.createFloat64Matrix (-1) (-1) .colMajor 0
      = .ok ⟨[0], -1, -1, .colMajor, -1⟩ := by decide

/-- C6 (amended): creation allocates exactly rows*cols elements filled
with the initial value and sets the canonical leading dimension, but it
fails (with the runtime range error) precisely when rows*cols is
negative, not when a dimension is negative. -/
theorem C6_create (rows cols : ℤ) (lay : MatrixLayout) (iv : ℚ) :
    (rows * cols < 0 →
      Utils.createFloat64Matrix rows cols lay iv = .error .rangeError)
    ∧ (0 ≤ rows * cols →
      Utils.createFloat64Matrix rows cols lay iv =
        .ok ⟨List.replicate (rows * cols).toNat iv, rows, cols, lay,
             match lay with | .colMajor => rows | .rowMajor => cols⟩) := by
  constructor
  · intro h
    unfold Utils.createFloat64Matrix
    rw [if_pos h]
  · intro h
    unfold Utils.createFloat64Matrix
    rw [if_neg (not_lt.mpr h)]
    have hdata : (if iv ≠ 0 then List.replicate (rows * cols).toNat iv
        else List.replicate (rows * cols).toNat 0) = List.replicate (rows * cols).toNat iv := by
      by_cases hiv : iv = 0
      · rw [if_neg (fun hh => hh hiv), hiv]
      · rw [if_pos hiv]
    dsimp only
    rw [hdata]
    unfold Utils.createMatrix
    rw [if_neg (by rw [List.length_replicate, Int.toNat_of_nonneg h]; exact lt_irrefl _)]

/-- Witness for C6: a 2x3 creation filled with 5, and a rejected
creation with rows*cols = -2. -/
theorem C6_create_witness :
    Utils.createFloat64Matrix 2 3 .colMajor 5
      = .ok ⟨List.replicate 6 5, 2, 3, .colMajor, 2⟩
    ∧ Utils.createFloat64Matrix (-1) 2 .colMajor 0 = .error .rangeError :=
  ⟨by
    have h := (C6_create 2 3 .colMajor 5).2 (by decide)
    simpa using h,
   (C6_create (-1) 2 .colMajor 0).1 (by decide)⟩

end ClaimC6

section ClaimC8

/-- The index-validation failure value shared by both accessors. -/
theorem validateIndices_fails (m : Matrix) (i j : ℤ)
    (h : i < 0 ∨ m.rows ≤ i ∨ j < 0 ∨ m.cols ≤ j) :
    Utils.validateIndices m i j = .error (.lapackError (-1) "validateIndices") := by
  unfold Utils.validateIndices
  by_cases hrow : i < 0 ∨ m.rows ≤ i
  · rw [if_pos hrow]
  · rw [if_neg hrow, if_pos (by tauto)]

/-- C8 counterexample: on a hand-built view whose buffer does not cover
the computed offset (data = [], rows = cols = 1), setElement validates
the indices, the out-of-range write is silently dropped, and getElement
returns the junk value 0 instead of the written 5. -/
theorem C8_roundtrip_counterexample :
    (Utils.setElement ⟨[], 1, 1, .colMajor, 1⟩ 0 0 5).bind
      (fun m2 => Utils.getElement m2 0 0) = .ok 0
    ∧ (Utils.setElement ⟨[], 1, 1, .colMajor, 1⟩ 0 0 5).bind
      (fun m2 => Utils.getElement m2 0 0) ≠ .ok 5 := by decide

/-- C8 (amended): on well-formed dense views (canonical leading
dimension, buffer covering rows*cols) the set/get round trip returns
exactly the written value for every in-range index pair in either
layout; and for every view both accessors fail with the out-of-range
LapackError whenever an index is outside [0,rows) x [0,cols). -/
theorem C8_roundtrip (m : Matrix) (i j : ℤ) (v : ℚ) :
    (Wf m → 0 ≤ i → i < m.rows → 0 ≤ j → j < m.cols →
      ∃ m2, Utils.setElement m i j v = .ok m2 ∧ Utils.getElement m2 i j = .ok v)
    ∧ ((i < 0 ∨ m.rows ≤ i ∨ j < 0 ∨ m.cols ≤ j) →
      Utils.getElement m i j = .error (.lapackError (-1) "validateIndices")
      ∧ Utils.setElement m i j v = .error (.lapackError (-1) "validateIndices")) := by
  constructor
  · intro hw hi0 hi hj0 hj
    have hvi : Utils.validateIndices m i j = .ok () := by
      unfold Utils.validateIndices
      rw [if_neg (by omega), if_neg (by omega)]
    have hvi2 : Utils.validateIndices (bufWrite m i j v) i j = .ok () := by
      unfold Utils.validateIndices
      rw [bufWrite_rows, bufWrite_cols]
      rw [if_neg (by omega), if_neg (by omega)]
    refine ⟨bufWrite m i j v, ?_, ?_⟩
    · unfold Utils.setElement
      rw [hvi]
    · unfold Utils.getElement
      rw [hvi2, bufRead_bufWrite_same m i j v hw hi0 hi hj0 hj]
  · intro h
    have hvi := validateIndices_fails m i j h
    constructor
    · unfold Utils.getElement
      rw [hvi]
    · unfold Utils.setElement
      rw [hvi]

/-- Witness for C8 at a concrete 2x3 row-major matrix: round trip at
(1,2) and failures at out-of-range indices. -/
theorem C8_roundtrip_witness :
    (∃ m2, Utils.setElement ⟨List.replicate 6 0, 2, 3, .rowMajor, 3⟩ 1 2 7 = .ok m2
      ∧ Utils.getElement m2 1 2 = .ok 7)
    ∧ Utils.getElement ⟨List.replicate 6 0, 2, 3, .rowMajor, 3⟩ 2 0
        = .error (.lapackError (-1) "validateIndices") :=
  ⟨(C8_roundtrip ⟨List.replicate 6 0, 2, 3, .rowMajor, 3⟩ 1 2 7).1
      (by decide) (by decide) (by decide) (by decide) (by decide),
   ((C8_roundtrip ⟨List.replicate 6 0, 2, 3, .rowMajor, 3⟩ 2 0 7).2
      (by decide)).1⟩

end ClaimC8

section ClaimC10

theorem intRange_0_neg1 : intRange 0 (-1) = [] := by decide

/-- C10 (amended): dgesv accepts a 0x0 A with 0-row B and returns
status 0 with a populated (empty) result, provided the leading
dimensions are at least 1; the canonical created 0x0 matrix has leading
dimension 0 and is instead rejected with -4 (see the counterexample). -/
theorem C10_empty_system (A B : Matrix) (ow : Bool)
    (hr : A.rows = 0) (hc : A.cols = 0) (hbr : B.rows = 0) (hbc : 0 ≤ B.cols)
    (hlda : 1 ≤ A.leadingDimension) (hldb : 1 ≤ B.leadingDimension) :
    ∃ r, LinearEquations.dgesv A B ow = .ok r ∧ r.info = 0 ∧ r.result.isSome := by
  have hval : Utils.validateParameters A.rows B.cols A.leadingDimension B.leadingDimension
      "DGESV" = .ok () := by
    unfold Utils.validateParameters
    rw [if_neg (by omega), if_neg (by omega), if_neg (by simp [hr]; omega),
      if_neg (by simp [hr]; omega)]
  have hgetrf : ∀ M : Matrix, M.rows = 0 → ∀ p, LinearEquations.dgetrf M p = (M, p, 0) := by
    intro M hM p
    unfold LinearEquations.dgetrf
    rw [hM]
    rfl
  have hgetrs : ∀ M N : Matrix, M.rows = 0 → ∀ p,
      LinearEquations.dgetrs .N M p N = .ok (N, 0) := by
    intro M N hM p
    unfold LinearEquations.dgetrs
    rw [hM]
    simp [intRange_00, intRange_0_neg1]
  cases ow
  case true =>
    refine ⟨⟨0, some ⟨B, A, List.replicate A.rows.toNat 0⟩, A, B⟩, ?_, rfl, rfl⟩
    simp only [LinearEquations.dgesv]
    rw [if_neg (by omega), if_neg (by omega), hval]
    simp [hgetrf A hr, hgetrs A B hr]
  case false =>
    have hcreateA : Utils.createFloat64Matrix A.rows A.rows A.layout 0
        = .ok ⟨[], 0, 0, A.layout, 0⟩ := by
      rw [hr]
      cases A.layout <;> rfl
    have hcreateB : Utils.createFloat64Matrix A.rows B.cols B.layout 0
        = .ok ⟨[], 0, B.cols, B.layout,
            match B.layout with | .colMajor => (0:ℤ) | .rowMajor => B.cols⟩ := by
      rw [hr]
      unfold Utils.createFloat64Matrix Utils.createMatrix
      simp
    have hcopyA : Utils.copyMatrix A ⟨[], 0, 0, A.layout, 0⟩ = .ok ⟨[], 0, 0, A.layout, 0⟩ := by
      unfold Utils.copyMatrix
      rw [if_neg (by simp [hr, hc]), if_neg (by rintro ⟨-, -, h3⟩; omega)]
      rw [hr, intRange_00]
      rfl
    have hcopyB : Utils.copyMatrix B ⟨[], 0, B.cols, B.layout,
        match B.layout with | .colMajor => (0:ℤ) | .rowMajor => B.cols⟩
        = .ok ⟨[], 0, B.cols, B.layout,
            match B.layout with | .colMajor => (0:ℤ) | .rowMajor => B.cols⟩ := by
      unfold Utils.copyMatrix
      rw [if_neg (by simp [hbr]), if_neg (by rintro ⟨-, -, h3⟩; omega)]
      rw [hbr, intRange_00]
      rfl
    refine ⟨⟨0, some ⟨⟨[], 0, B.cols, B.layout,
        match B.layout with | .colMajor => (0:ℤ) | .rowMajor => B.cols⟩,
        ⟨[], 0, 0, A.layout, 0⟩, List.replicate A.rows.toNat 0⟩, A, B⟩, ?_, rfl, rfl⟩
    simp only [LinearEquations.dgesv]
    rw [if_neg (by omega), if_neg (by omega), hval]
    simp [hcreateA, hcreateB, hcopyA, hcopyB,
      hgetrf ⟨[], 0, 0, A.layout, 0⟩ rfl,
      hgetrs ⟨[], 0, 0, A.layout, 0⟩
        ⟨[], 0, B.cols, B.layout,
          match B.layout with | .colMajor => (0:ℤ) | .rowMajor => B.cols⟩ rfl]

/-- Witness for C10 at concrete hand-adjusted views with leading
dimension 1. -/
theorem C10_empty_system_witness :
    (⟨[], 0, 0, .colMajor, 1⟩ : Matrix).rows = 0
    ∧ ∃ r, LinearEquations.dgesv ⟨[], 0, 0, .colMajor, 1⟩ ⟨[], 0, 2, .colMajor, 1⟩ false
        = .ok r ∧ r.info = 0 ∧ r.result.isSome :=
  ⟨rfl, C10_empty_system ⟨[], 0, 0, .colMajor, 1⟩ ⟨[], 0, 2, .colMajor, 1⟩ false
    rfl rfl rfl (by decide) (by decide) (by decide)⟩

/-- C10 counterexample: the matrices actually produced by the creation
helper for a 0x0 A (and 0x1 B) carry leadingDimension 0, and dgesv
rejects them with status -4, not 0. -/
theorem C10_counterexample :
    Utils.createFloat64Matrix 0 0 .colMajor 0 = .ok ⟨[], 0, 0, .colMajor, 0⟩
    ∧ Utils.createFloat64Matrix 0 1 .colMajor 0 = .ok ⟨[], 0, 1, .colMajor, 0⟩
    ∧ LinearEquations.dgesv ⟨[], 0, 0, .colMajor, 0⟩ ⟨[], 0, 1, .colMajor, 0⟩ false
        = .ok ⟨-4, none, ⟨[], 0, 0, .colMajor, 0⟩, ⟨[], 0, 1, .colMajor, 0⟩⟩ := by
  refine ⟨by decide, by decide, ?_⟩
  decide

end ClaimC10

end LapackTs
